import Mathlib

/-!
Verification of the dora-yaki metrics pipeline.

Shallow embedding conventions:
* `time.Time` values are rationals measured in hours since an arbitrary epoch;
  `*time.Time` (nullable timestamps) become `Option ℚ`.
* `float64` durations are modelled as `ℚ`; every quantity appearing in the
  verified claims is exactly representable.
* Go slices become `List`, maps become association lists or functions,
  the Datastore becomes an explicit state record, and Datastore transactions
  become pure state-transition functions (an aborted transaction leaves the
  state unchanged).
-/

namespace DoraYaki

/-- `model.PullRequest` (timestamp and size fields used by the metrics code). -/
structure PullRequest where
  id : String
  author : String
  createdAt : ℚ
  mergedAt : Option ℚ
  closedAt : Option ℚ
  firstCommitAt : Option ℚ
  firstReviewAt : Option ℚ
  approvedAt : Option ℚ
  additions : Int
  deletions : Int
  deriving Repr, DecidableEq

namespace PullRequest

/-- `PullRequest.CycleTimeHours`: 0 when `MergedAt` is nil; otherwise merge
time minus the earlier of `CreatedAt` and `FirstCommitAt`. -/
def CycleTimeHours (pr : PullRequest) : ℚ :=
  match pr.mergedAt with
  | none => 0
  | some m =>
    let start :=
      match pr.firstCommitAt with
      | some fc => if fc < pr.createdAt then fc else pr.createdAt
      | none => pr.createdAt
    m - start

/-- `PullRequest.CodingTimeHours`: 0 when `FirstCommitAt` is nil; otherwise
creation time minus first-commit time. -/
def CodingTimeHours (pr : PullRequest) : ℚ :=
  match pr.firstCommitAt with
  | none => 0
  | some fc => pr.createdAt - fc

/-- `PullRequest.PickupTimeHours`: 0 when `FirstReviewAt` is nil; otherwise
first-review time minus creation time. -/
def PickupTimeHours (pr : PullRequest) : ℚ :=
  match pr.firstReviewAt with
  | none => 0
  | some fr => fr - pr.createdAt

/-- `PullRequest.ReviewTimeHours`: 0 when `FirstReviewAt` or `ApprovedAt` is
nil; otherwise approval time minus first-review time. -/
def ReviewTimeHours (pr : PullRequest) : ℚ :=
  match pr.firstReviewAt, pr.approvedAt with
  | some fr, some ap => ap - fr
  | _, _ => 0

/-- `PullRequest.MergeTimeHours`: 0 when `ApprovedAt` or `MergedAt` is nil;
otherwise merge time minus approval time. -/
def MergeTimeHours (pr : PullRequest) : ℚ :=
  match pr.approvedAt, pr.mergedAt with
  | some ap, some m => m - ap
  | _, _ => 0

end PullRequest

/-- A pull request with every nullable timestamp absent, used to instantiate
the derived-duration theorems. -/
def unmergedPR : PullRequest :=
  { id := "pr-0", author := "alice", createdAt := 7, mergedAt := none,
    closedAt := none, firstCommitAt := none, firstReviewAt := none,
    approvedAt := none, additions := 3, deletions := 1 }

/-! ## Statistical helpers of `metrics/calculator.go` -/

/-- `average`: 0 for an empty slice, otherwise sum divided by length. -/
def average (values : List ℚ) : ℚ :=
  if values = [] then 0 else values.sum / values.length

/-- `sort.Float64s` on a copied slice: the ascending sort used by `median`
and `percentile`. -/
def sortFloat64s (values : List ℚ) : List ℚ :=
  values.insertionSort (fun a b => a ≤ b)

/-- `median`: middle element of the sorted copy, or the mean of the two
middle elements when the length is even; 0 for an empty slice. -/
def median (values : List ℚ) : ℚ :=
  if values = [] then 0
  else
    let sorted := sortFloat64s values
    let mid := sorted.length / 2
    if sorted.length % 2 = 0 then (sorted.getD (mid - 1) 0 + sorted.getD mid 0) / 2
    else sorted.getD mid 0

/-- Go's `int(x)` conversion from `float64`: truncation toward zero. -/
def truncToInt (q : ℚ) : ℤ :=
  if 0 ≤ q then ⌊q⌋ else -⌊-q⌋

/-- `percentile`: linear interpolation between the order statistics that
bracket the fractional index `(p/100)·(n-1)` of the sorted copy; 0 for an
empty slice. -/
def percentile (values : List ℚ) (p : ℚ) : ℚ :=
  if values = [] then 0
  else
    let sorted := sortFloat64s values
    let index : ℚ := (p / 100) * ((sorted.length : ℚ) - 1)
    let lower : ℤ := truncToInt index
    let upper : ℤ := lower + 1
    if (sorted.length : ℤ) ≤ upper then sorted.getD lower.toNat 0
    else
      let weight : ℚ := index - lower
      sorted.getD lower.toNat 0 * (1 - weight) + sorted.getD upper.toNat 0 * weight

/-! ## `Calculator.CalculateCycleTime` -/

/-- The merged-PR window filter at the top of `CalculateCycleTime`:
`pr.MergedAt != nil && !pr.MergedAt.Before(startDate) && !pr.MergedAt.After(endDate)`. -/
def mergedInWindow (prs : List PullRequest) (startDate endDate : ℚ) : List PullRequest :=
  prs.filter fun pr =>
    match pr.mergedAt with
    | some m => decide (startDate ≤ m) && decide (m ≤ endDate)
    | none => false

/-- The loop of `CalculateCycleTime` that appends a duration to its series
only when it is strictly positive. -/
def positiveSeries (f : PullRequest → ℚ) (prs : List PullRequest) : List ℚ :=
  prs.foldl (fun acc pr => if 0 < f pr then acc ++ [f pr] else acc) []

/-- `model.CycleTimeMetrics` (the numeric fields; per-author and
per-file-extension aggregations are not needed by any verified claim). -/
structure CycleTimeMetrics where
  totalPRs : ℕ
  avgCycleTime : ℚ
  avgCodingTime : ℚ
  avgPickupTime : ℚ
  avgReviewTime : ℚ
  avgMergeTime : ℚ
  medianCycleTime : ℚ
  p90CycleTime : ℚ
  deriving Repr, DecidableEq

/-- `Calculator.CalculateCycleTime`: filter to merged PRs in the window,
build the five positive-duration series, and report mean / median /
90th-percentile statistics. -/
def CalculateCycleTime (prs : List PullRequest) (startDate endDate : ℚ) :
    CycleTimeMetrics :=
  let mergedPRs := mergedInWindow prs startDate endDate
  if mergedPRs = [] then
    { totalPRs := 0, avgCycleTime := 0, avgCodingTime := 0, avgPickupTime := 0,
      avgReviewTime := 0, avgMergeTime := 0, medianCycleTime := 0, p90CycleTime := 0 }
  else
    let cycleTimes := positiveSeries PullRequest.CycleTimeHours mergedPRs
    let codingTimes := positiveSeries PullRequest.CodingTimeHours mergedPRs
    let pickupTimes := positiveSeries PullRequest.PickupTimeHours mergedPRs
    let reviewTimes := positiveSeries PullRequest.ReviewTimeHours mergedPRs
    let mergeTimes := positiveSeries PullRequest.MergeTimeHours mergedPRs
    { totalPRs := mergedPRs.length,
      avgCycleTime := average cycleTimes,
      avgCodingTime := average codingTimes,
      avgPickupTime := average pickupTimes,
      avgReviewTime := average reviewTimes,
      avgMergeTime := average mergeTimes,
      medianCycleTime := median cycleTimes,
      p90CycleTime := percentile cycleTimes 90 }

/-- `Calculator.scoreCycleTime`: the documented step function on the average
cycle time in hours. -/
def scoreCycleTime (avgHours : ℚ) : ℚ :=
  if avgHours ≤ 24 then 100
  else if avgHours ≤ 72 then 80
  else if avgHours ≤ 168 then 60
  else if avgHours ≤ 336 then 40
  else 20

/-! ## Concrete pull requests for the end-to-end scenario -/

/-- Scenario PR merged 10 hours after creation. -/
def prTen : PullRequest :=
  { id := "pr-10h", author := "alice", createdAt := 0, mergedAt := some 10,
    closedAt := none, firstCommitAt := none, firstReviewAt := none,
    approvedAt := none, additions := 0, deletions := 0 }

/-- Scenario PR merged 50 hours after creation. -/
def prFifty : PullRequest :=
  { id := "pr-50h", author := "bob", createdAt := 0, mergedAt := some 50,
    closedAt := none, firstCommitAt := none, firstReviewAt := none,
    approvedAt := none, additions := 0, deletions := 0 }

/-- Scenario PR merged 200 hours after creation. -/
def prTwoHundred : PullRequest :=
  { id := "pr-200h", author := "carol", createdAt := 0, mergedAt := some 200,
    closedAt := none, firstCommitAt := none, firstReviewAt := none,
    approvedAt := none, additions := 0, deletions := 0 }

/-- The three scenario pull requests with cycle times 10h, 50h and 200h. -/
def scenarioPRs : List PullRequest := [prTen, prFifty, prTwoHundred]

/-- A pull request merged exactly at hour 5, the end of the `[0,5]` window. -/
def prAtWindowEnd : PullRequest :=
  { id := "pr-end", author := "dave", createdAt := 0, mergedAt := some 5,
    closedAt := none, firstCommitAt := none, firstReviewAt := none,
    approvedAt := none, additions := 0, deletions := 0 }

/-! ## `handler/metrics.go`: daily-metrics aggregation across repositories -/

/-- `model.DailyMetrics` (the fields touched by `collectDailyMetrics`). -/
structure DailyMetrics where
  date : ℚ
  avgCycleTime : ℚ
  avgCodingTime : ℚ
  avgPickupTime : ℚ
  avgReviewTime : ℚ
  avgMergeTime : ℚ
  prsOpened : ℤ
  prsMerged : ℤ
  prsClosed : ℤ
  reviewsSubmitted : ℤ
  totalAdditions : ℤ
  totalDeletions : ℤ
  deploymentCount : ℤ
  activeContributors : ℤ
  avgReviewsPerPR : ℚ
  deriving Repr, DecidableEq

/-- `weightedAvg` of `handler/metrics.go`: 0 when the weights sum to 0,
otherwise the weight-proportional mean. -/
def weightedAvg (val1 : ℚ) (weight1 : ℤ) (val2 : ℚ) (weight2 : ℤ) : ℚ :=
  if weight1 + weight2 = 0 then 0
  else (val1 * weight1 + val2 * weight2) / ((weight1 + weight2 : ℤ) : ℚ)

/-- The body of the `collectDailyMetrics` aggregation loop for one further
repository's row `dm` merged into the accumulated row `agg` of the same date:
duration averages are combined by `weightedAvg` with each side's merged-PR
count as its weight (when the combined count is positive), counts are summed,
and the reviews-per-PR ratio is recomputed from the summed counts. -/
def mergeDailyMetrics (agg dm : DailyMetrics) : DailyMetrics :=
  let prevMerged := agg.prsMerged
  let newMerged := dm.prsMerged
  let totalMerged := prevMerged + newMerged
  let agg1 :=
    if 0 < totalMerged then
      { agg with
        avgCycleTime := weightedAvg agg.avgCycleTime prevMerged dm.avgCycleTime newMerged,
        avgCodingTime := weightedAvg agg.avgCodingTime prevMerged dm.avgCodingTime newMerged,
        avgPickupTime := weightedAvg agg.avgPickupTime prevMerged dm.avgPickupTime newMerged,
        avgReviewTime := weightedAvg agg.avgReviewTime prevMerged dm.avgReviewTime newMerged,
        avgMergeTime := weightedAvg agg.avgMergeTime prevMerged dm.avgMergeTime newMerged }
    else agg
  let agg2 :=
    { agg1 with
      prsOpened := agg1.prsOpened + dm.prsOpened,
      prsMerged := agg1.prsMerged + dm.prsMerged,
      prsClosed := agg1.prsClosed + dm.prsClosed,
      reviewsSubmitted := agg1.reviewsSubmitted + dm.reviewsSubmitted,
      totalAdditions := agg1.totalAdditions + dm.totalAdditions,
      totalDeletions := agg1.totalDeletions + dm.totalDeletions,
      deploymentCount := agg1.deploymentCount + dm.deploymentCount,
      activeContributors := agg1.activeContributors + dm.activeContributors }
  if 0 < agg2.prsOpened then
    { agg2 with
      avgReviewsPerPR := (agg2.reviewsSubmitted : ℚ) / (agg2.prsOpened : ℚ) }
  else agg2

/-! ## `datastore/client.go`: SyncLock acquire and release -/

/-- `model.SyncLock`: lease record with holder identity and expiry. -/
structure SyncLock where
  id : String
  lockedBy : String
  lockedAt : ℚ
  expiresAt : ℚ
  deriving Repr, DecidableEq

/-- The `SyncLock` kind of the Datastore, keyed by lock id. -/
def LockStore : Type := String → Option SyncLock

/-- `tx.Put` of a lock record under its key. -/
def putLock (st : LockStore) (lockID : String) (lock : SyncLock) : LockStore :=
  fun k => if k = lockID then some lock else st k

/-- `tx.Delete` of the lock record under a key. -/
def deleteLock (st : LockStore) (lockID : String) : LockStore :=
  fun k => if k = lockID then none else st k

/-- Result of a lock transaction: the Datastore state after it commits (the
state is unchanged when the transaction returns an error and rolls back)
together with the returned error. -/
structure LockOutcome where
  store : LockStore
  err : Option String

/-- `Client.AcquireSyncLock`: inside a transaction, fail with "lock already
held" when a lock exists whose expiry is still in the future; otherwise write
a fresh lock held by `lockedBy` expiring at `now + ttl`. -/
def AcquireSyncLock (st : LockStore) (lockID lockedBy : String) (now ttl : ℚ) :
    LockOutcome :=
  let newLock : SyncLock :=
    { id := lockID, lockedBy := lockedBy, lockedAt := now, expiresAt := now + ttl }
  match st lockID with
  | some existing =>
    if now < existing.expiresAt then
      { store := st, err := some ("lock already held by " ++ existing.lockedBy) }
    else
      { store := putLock st lockID newLock, err := none }
  | none => { store := putLock st lockID newLock, err := none }

/-- `Client.ReleaseSyncLock`: inside a transaction, do nothing when no lock
exists or the stored holder differs from the caller; delete the lock when the
holder matches. Always returns no error. -/
def ReleaseSyncLock (st : LockStore) (lockID lockedBy : String) : LockOutcome :=
  match st lockID with
  | none => { store := st, err := none }
  | some existing =>
    if existing.lockedBy ≠ lockedBy then { store := st, err := none }
    else { store := deleteLock st lockID, err := none }

/-! ## `handler/job.go`: sync target selection -/

/-- `model.Repository` (the fields `pickSyncTarget` reads). Times are
rationals in minutes since an arbitrary epoch; the Go zero `time.Time` that
stands for "never synced" is the epoch 0 itself, and real sync timestamps are
strictly after it. -/
structure Repository where
  id : String
  lastSyncedAt : Option ℚ
  processStartAt : Option ℚ
  deriving Repr, DecidableEq

/-- `processStartGuard`: 10 minutes. -/
def processStartGuard : ℚ := 10

/-- The interval check of `pickSyncTarget`: skip when a last-successful-sync
time exists and less than the sync interval has elapsed since it. -/
def notRecentlySynced (now syncInterval : ℚ) (repo : Repository) : Bool :=
  match repo.lastSyncedAt with
  | some t => !decide (now - t < syncInterval)
  | none => true

/-- The liveness-guard check of `pickSyncTarget`: skip when a process-start
marker exists and less than `processStartGuard` has elapsed since it. -/
def notRecentlyStarted (now : ℚ) (repo : Repository) : Bool :=
  match repo.processStartAt with
  | some t => !decide (now - t < processStartGuard)
  | none => true

/-- A repository passes both checks of the unspecified-repo branch. -/
def syncEligible (now syncInterval : ℚ) (repo : Repository) : Bool :=
  notRecentlySynced now syncInterval repo && notRecentlyStarted now repo

/-- `repoSync` of the selection loop: the last-successful-sync time with the
Go zero time (never synced, highest priority) as default. -/
def syncKey (repo : Repository) : ℚ :=
  repo.lastSyncedAt.getD 0

/-- One iteration of the selection loop of `pickSyncTarget`'s
unspecified-repo branch, carrying the current `(target, oldestSync)` pair. -/
def pickStep (now syncInterval : ℚ) (acc : Option (Repository × ℚ))
    (repo : Repository) : Option (Repository × ℚ) :=
  if syncEligible now syncInterval repo then
    let repoSync := syncKey repo
    match acc with
    | none => some (repo, repoSync)
    | some (t, old) => if repoSync < old then some (repo, repoSync) else some (t, old)
  else acc

/-- `pickSyncTarget` when no repository is requested: fold the selection loop
over all repositories and return the chosen target, if any. -/
def pickSyncTargetAuto (repos : List Repository) (now syncInterval : ℚ) :
    Option Repository :=
  (repos.foldl (pickStep now syncInterval) none).map Prod.fst

/-! ## `middleware/cache.go`: the tiered response cache -/

/-- `middleware.CacheEntry`: a captured response body (bytes as naturals)
with content type, status code and creation time. -/
structure CacheEntry where
  body : List ℕ
  contentType : String
  statusCode : ℕ
  createdAt : ℚ
  deriving Repr, DecidableEq

/-- The two cache tiers of `ResponseCache`: the in-process memory map and the
Datastore `MetricsCache` kind (which stores only the body bytes). -/
structure CacheState where
  memory : String → Option CacheEntry
  ds : String → Option (List ℕ)

/-- `cacheWriter`: the response captured while the wrapped handler runs. -/
structure ResponseCapture where
  body : List ℕ
  contentType : String
  statusCode : ℕ
  deriving Repr, DecidableEq

/-- `ResponseCache.getFromMemory`: a hit only when an entry exists whose age
does not exceed the TTL. -/
def getFromMemory (rc : CacheState) (ttl : ℚ) (key : String) (now : ℚ) :
    Option CacheEntry :=
  match rc.memory key with
  | none => none
  | some entry => if ttl < now - entry.createdAt then none else some entry

/-- `ResponseCache.getFromDatastore`: on a durable-tier hit, rebuild an entry
from the stored bytes and promote it into the memory tier before returning. -/
def getFromDatastore (rc : CacheState) (key : String) (now : ℚ) :
    Option (CacheEntry × CacheState) :=
  match rc.ds key with
  | none => none
  | some body =>
    let entry : CacheEntry :=
      { body := body, contentType := "application/json", statusCode := 200,
        createdAt := now }
    some (entry,
      { rc with memory := fun k => if k = key then some entry else rc.memory k })

/-- `ResponseCache.storeAll`: write the captured response to the memory tier
(synchronously) and the body bytes to the durable tier (fire-and-forget in
the code; modelled as the completed write). -/
def storeAll (rc : CacheState) (key : String) (cw : ResponseCapture) (now : ℚ) :
    CacheState :=
  let contentType := if cw.contentType = "" then "application/json" else cw.contentType
  let entry : CacheEntry :=
    { body := cw.body, contentType := contentType, statusCode := cw.statusCode,
      createdAt := now }
  { memory := fun k => if k = key then some entry else rc.memory k,
    ds := fun k => if k = key then some cw.body else rc.ds k }

/-- Stage 3 of the middleware: run the handler and cache its captured
response in both tiers only when the status is 2xx. -/
def computeAndCache (rc : CacheState) (key : String) (cw : ResponseCapture)
    (now : ℚ) : CacheState :=
  if 200 ≤ cw.statusCode ∧ cw.statusCode < 300 then storeAll rc key cw now else rc

/-- Eviction of a single memory-tier entry (what the TTL sweep does to an
expired key), leaving the durable tier untouched. -/
def evictMemory (rc : CacheState) (key : String) : CacheState :=
  { rc with memory := fun k => if k = key then none else rc.memory k }

end DoraYaki

/-! ## C3: the merge-window filter -/

/-- C3 counterexample: a pull request merged exactly at the window end (hour 5
of the window `[0,5]`) IS selected by the filter, refuting the half-open
`start ≤ t < end` selection the claim states. -/
theorem c3_counterexample_end_included :
    DoraYaki.prAtWindowEnd ∈
      DoraYaki.mergedInWindow [DoraYaki.prAtWindowEnd] 0 5 ∧
    DoraYaki.prAtWindowEnd.mergedAt = some 5 := by
  constructor
  · simp [DoraYaki.mergedInWindow, DoraYaki.prAtWindowEnd, List.filter]
  · rfl

/-- C3 (amended): the Calculator's cycle-time computation selects exactly the
pull requests with a non-null merge timestamp `t` satisfying
`start ≤ t ≤ end` — the window is closed at both ends, so a pull request
merged exactly at the window end is included. -/
theorem c3_merge_window_closed (prs : List DoraYaki.PullRequest)
    (startDate endDate : ℚ) (pr : DoraYaki.PullRequest) :
    pr ∈ DoraYaki.mergedInWindow prs startDate endDate ↔
      pr ∈ prs ∧ ∃ m, pr.mergedAt = some m ∧ startDate ≤ m ∧ m ≤ endDate := by
  unfold DoraYaki.mergedInWindow
  rw [List.mem_filter]
  cases h : pr.mergedAt with
  | none => simp [h]
  | some m => simp [h]

/-! ## C6: non-positive durations are excluded from every series -/

/-- The foldl that builds a duration series equals filtering the mapped
durations down to the strictly positive ones. -/
theorem positiveSeries_eq_filter (f : DoraYaki.PullRequest → ℚ)
    (l : List DoraYaki.PullRequest) :
    DoraYaki.positiveSeries f l = (l.map f).filter (fun v => decide (0 < v)) := by
  suffices h : ∀ acc : List ℚ,
      l.foldl (fun acc pr => if 0 < f pr then acc ++ [f pr] else acc) acc =
        acc ++ (l.map f).filter (fun v => decide (0 < v)) by
    simpa [DoraYaki.positiveSeries] using h []
  induction l with
  | nil => intro acc; simp
  | cons hd tl ih =>
    intro acc
    by_cases hpos : 0 < f hd
    · simp [hpos, ih]
    · simp [hpos, ih]

/-- C6: in the Calculator's cycle-time computation every duration series is
the positive-filtered list of per-PR durations: a non-positive value never
enters a series, and the reported mean/median/percentile are computed over
those filtered series. -/
theorem c6_nonpositive_durations_excluded (prs : List DoraYaki.PullRequest)
    (startDate endDate : ℚ) (f : DoraYaki.PullRequest → ℚ) (v : ℚ) :
    DoraYaki.positiveSeries f (DoraYaki.mergedInWindow prs startDate endDate) =
      ((DoraYaki.mergedInWindow prs startDate endDate).map f).filter
        (fun v => decide (0 < v)) ∧
    (v ≤ 0 →
      v ∉ DoraYaki.positiveSeries f (DoraYaki.mergedInWindow prs startDate endDate)) ∧
    (DoraYaki.mergedInWindow prs startDate endDate ≠ [] →
      (DoraYaki.CalculateCycleTime prs startDate endDate).avgCycleTime =
        DoraYaki.average (DoraYaki.positiveSeries DoraYaki.PullRequest.CycleTimeHours
          (DoraYaki.mergedInWindow prs startDate endDate)) ∧
      (DoraYaki.CalculateCycleTime prs startDate endDate).medianCycleTime =
        DoraYaki.median (DoraYaki.positiveSeries DoraYaki.PullRequest.CycleTimeHours
          (DoraYaki.mergedInWindow prs startDate endDate)) ∧
      (DoraYaki.CalculateCycleTime prs startDate endDate).p90CycleTime =
        DoraYaki.percentile (DoraYaki.positiveSeries DoraYaki.PullRequest.CycleTimeHours
          (DoraYaki.mergedInWindow prs startDate endDate)) 90) := by
  refine ⟨positiveSeries_eq_filter f _, ?_, ?_⟩
  · intro hv hmem
    rw [positiveSeries_eq_filter] at hmem
    have := List.of_mem_filter hmem
    simp at this
    exact absurd hv (not_le.mpr this)
  · intro hne
    refine ⟨?_, ?_, ?_⟩ <;> simp [DoraYaki.CalculateCycleTime, hne]

/-! ## C4: the weighted multi-repository average -/

namespace DoraYaki

/-- A concrete same-day row: average cycle time 10h over 3 merged PRs. -/
def dayRowA : DailyMetrics :=
  { date := 0, avgCycleTime := 10, avgCodingTime := 0, avgPickupTime := 0,
    avgReviewTime := 0, avgMergeTime := 0, prsOpened := 3, prsMerged := 3,
    prsClosed := 0, reviewsSubmitted := 0, totalAdditions := 0,
    totalDeletions := 0, deploymentCount := 0, activeContributors := 0,
    avgReviewsPerPR := 0 }

/-- A concrete same-day row: average cycle time 20h over 1 merged PR. -/
def dayRowB : DailyMetrics :=
  { date := 0, avgCycleTime := 20, avgCodingTime := 0, avgPickupTime := 0,
    avgReviewTime := 0, avgMergeTime := 0, prsOpened := 1, prsMerged := 1,
    prsClosed := 0, reviewsSubmitted := 0, totalAdditions := 0,
    totalDeletions := 0, deploymentCount := 0, activeContributors := 0,
    avgReviewsPerPR := 0 }

end DoraYaki

/-- C4: `weightedAvg(vA,wA,vB,wB)` equals `(vA·wA+vB·wB)/(wA+wB)` whenever the
weights sum positively and equals `vA` when `wB = 0 < wA`; the per-day
multi-repository merge combines every duration average through `weightedAvg`
weighted by each side's merged-PR count for that day, and on a concrete pair
of rows (10h over 3 PRs, 20h over 1 PR) it yields 12.5h, not the plain
arithmetic mean 15h of the per-repo averages. -/
theorem c4_weighted_daily_merge (vA : ℚ) (wA : ℤ) (vB : ℚ) (wB : ℤ)
    (A B : DoraYaki.DailyMetrics) :
    (0 < wA + wB →
      DoraYaki.weightedAvg vA wA vB wB = (vA * wA + vB * wB) / ((wA + wB : ℤ) : ℚ)) ∧
    (wB = 0 → 0 < wA → DoraYaki.weightedAvg vA wA vB wB = vA) ∧
    (0 < A.prsMerged + B.prsMerged →
      (DoraYaki.mergeDailyMetrics A B).avgCycleTime =
        DoraYaki.weightedAvg A.avgCycleTime A.prsMerged B.avgCycleTime B.prsMerged ∧
      (DoraYaki.mergeDailyMetrics A B).avgCodingTime =
        DoraYaki.weightedAvg A.avgCodingTime A.prsMerged B.avgCodingTime B.prsMerged ∧
      (DoraYaki.mergeDailyMetrics A B).avgPickupTime =
        DoraYaki.weightedAvg A.avgPickupTime A.prsMerged B.avgPickupTime B.prsMerged ∧
      (DoraYaki.mergeDailyMetrics A B).avgReviewTime =
        DoraYaki.weightedAvg A.avgReviewTime A.prsMerged B.avgReviewTime B.prsMerged ∧
      (DoraYaki.mergeDailyMetrics A B).avgMergeTime =
        DoraYaki.weightedAvg A.avgMergeTime A.prsMerged B.avgMergeTime B.prsMerged) ∧
    ((DoraYaki.mergeDailyMetrics DoraYaki.dayRowA DoraYaki.dayRowB).avgCycleTime = 25 / 2 ∧
      (DoraYaki.dayRowA.avgCycleTime + DoraYaki.dayRowB.avgCycleTime) / 2 = 15 ∧
      (25 / 2 : ℚ) ≠ 15) := by
  refine ⟨?_, ?_, ?_, ?_⟩
  · intro h
    rw [DoraYaki.weightedAvg, if_neg (by omega)]
  · intro hB hA
    subst hB
    rw [DoraYaki.weightedAvg, if_neg (by omega)]
    have : ((wA : ℚ)) ≠ 0 := by
      exact_mod_cast Int.ne_of_gt hA
    push_cast
    field_simp
  · intro h
    refine ⟨?_, ?_, ?_, ?_, ?_⟩ <;>
      simp [DoraYaki.mergeDailyMetrics, h, apply_ite]
  · refine ⟨?_, by norm_num [DoraYaki.dayRowA, DoraYaki.dayRowB], by norm_num⟩
    norm_num [DoraYaki.mergeDailyMetrics, DoraYaki.dayRowA, DoraYaki.dayRowB,
      DoraYaki.weightedAvg]

/-! ## C1: the end-to-end scenario -/

/-- Evaluation of `CalculateCycleTime` on the three scenario pull requests
(cycle times 10h, 50h, 200h) over the 30-day (720-hour) window. -/
theorem scenarioMetrics_eval :
    DoraYaki.CalculateCycleTime DoraYaki.scenarioPRs 0 720 =
      { totalPRs := 3, avgCycleTime := 260 / 3, avgCodingTime := 0,
        avgPickupTime := 0, avgReviewTime := 0, avgMergeTime := 0,
        medianCycleTime := 50, p90CycleTime := 170 } := by
  have hw : DoraYaki.mergedInWindow DoraYaki.scenarioPRs 0 720 =
      [DoraYaki.prTen, DoraYaki.prFifty, DoraYaki.prTwoHundred] := by
    simp [DoraYaki.mergedInWindow, DoraYaki.scenarioPRs, DoraYaki.prTen,
      DoraYaki.prFifty, DoraYaki.prTwoHundred, List.filter]
    norm_num
  have hA : DoraYaki.prTen.CycleTimeHours = 10 := by
    simp [DoraYaki.prTen, DoraYaki.PullRequest.CycleTimeHours]
  have hB : DoraYaki.prFifty.CycleTimeHours = 50 := by
    simp [DoraYaki.prFifty, DoraYaki.PullRequest.CycleTimeHours]
  have hC : DoraYaki.prTwoHundred.CycleTimeHours = 200 := by
    simp [DoraYaki.prTwoHundred, DoraYaki.PullRequest.CycleTimeHours]
  have cA : DoraYaki.prTen.CodingTimeHours = 0 := rfl
  have cB : DoraYaki.prFifty.CodingTimeHours = 0 := rfl
  have cC : DoraYaki.prTwoHundred.CodingTimeHours = 0 := rfl
  have pA : DoraYaki.prTen.PickupTimeHours = 0 := rfl
  have pB : DoraYaki.prFifty.PickupTimeHours = 0 := rfl
  have pC : DoraYaki.prTwoHundred.PickupTimeHours = 0 := rfl
  have rA : DoraYaki.prTen.ReviewTimeHours = 0 := rfl
  have rB : DoraYaki.prFifty.ReviewTimeHours = 0 := rfl
  have rC : DoraYaki.prTwoHundred.ReviewTimeHours = 0 := rfl
  have mA : DoraYaki.prTen.MergeTimeHours = 0 := rfl
  have mB : DoraYaki.prFifty.MergeTimeHours = 0 := rfl
  have mC : DoraYaki.prTwoHundred.MergeTimeHours = 0 := rfl
  simp [DoraYaki.CalculateCycleTime, hw, DoraYaki.positiveSeries, DoraYaki.average,
    hA, hB, hC, cA, cB, cC, pA, pB, pC, rA, rB, rC, mA, mB, mC,
    DoraYaki.median, DoraYaki.percentile, DoraYaki.sortFloat64s,
    List.insertionSort, List.orderedInsert, DoraYaki.truncToInt, Int.toNat]
  norm_num

/-- C1 counterexample: on the 3-PR scenario the mean total cycle time is
260/3 ≈ 86.7h, and the documented cycle-time step function maps it to a
sub-score of 60 — not the 40 the claim states. -/
theorem c1_counterexample_score_is_sixty :
    DoraYaki.scoreCycleTime
        (DoraYaki.CalculateCycleTime DoraYaki.scenarioPRs 0 720).avgCycleTime = 60 ∧
    DoraYaki.scoreCycleTime
        (DoraYaki.CalculateCycleTime DoraYaki.scenarioPRs 0 720).avgCycleTime ≠ 40 := by
  rw [scenarioMetrics_eval]
  norm_num [DoraYaki.scoreCycleTime]

/-- C1 (amended): on a repository with exactly 3 pull requests merged within
a 30-day (720h) window whose cycle times are 10h, 50h and 200h,
`CalculateCycleTime` reports mean total cycle time 260/3 (between 86.65h and
86.75h, so 86.7h at one decimal), median 50h, and a 90th percentile of 170h,
which lies strictly between 50h and 200h by linear interpolation; the
documented cycle-time step function maps that mean to a sub-score of 60. -/
theorem c1_scenario_metrics :
    (DoraYaki.CalculateCycleTime DoraYaki.scenarioPRs 0 720).totalPRs = 3 ∧
    (DoraYaki.CalculateCycleTime DoraYaki.scenarioPRs 0 720).avgCycleTime = 260 / 3 ∧
    (1733 / 20 : ℚ) < 260 / 3 ∧ (260 / 3 : ℚ) < 1735 / 20 ∧
    (DoraYaki.CalculateCycleTime DoraYaki.scenarioPRs 0 720).medianCycleTime = 50 ∧
    (DoraYaki.CalculateCycleTime DoraYaki.scenarioPRs 0 720).p90CycleTime = 170 ∧
    (50 : ℚ) < 170 ∧ (170 : ℚ) < 200 ∧
    DoraYaki.scoreCycleTime
        (DoraYaki.CalculateCycleTime DoraYaki.scenarioPRs 0 720).avgCycleTime = 60 := by
  rw [scenarioMetrics_eval]
  norm_num [DoraYaki.scoreCycleTime]

/-- C2: for every `PullRequest`, an absent merged timestamp forces the derived
cycle time to 0, and an absent approved timestamp forces the derived merge
time to 0. -/
theorem c2_absent_timestamps_zero_durations (pr : DoraYaki.PullRequest) :
    (pr.mergedAt = none → pr.CycleTimeHours = 0) ∧
    (pr.approvedAt = none → pr.MergeTimeHours = 0) := by
  constructor
  · intro h
    simp [DoraYaki.PullRequest.CycleTimeHours, h]
  · intro h
    simp [DoraYaki.PullRequest.MergeTimeHours, h]

/-- Witness for C2 at a concrete pull request with both timestamps absent. -/
theorem c2_absent_timestamps_zero_durations_witness :
    DoraYaki.unmergedPR.CycleTimeHours = 0 ∧
    DoraYaki.unmergedPR.MergeTimeHours = 0 :=
  ⟨(c2_absent_timestamps_zero_durations DoraYaki.unmergedPR).1 rfl,
   (c2_absent_timestamps_zero_durations DoraYaki.unmergedPR).2 rfl⟩

/-! ## C7 and C10: lease acquire / release -/

/-- C7: `AcquireSyncLock` succeeds exactly when no lease exists for the lock
id or the stored lease's expiry is not in the future; on success it writes a
lease holding the caller's owner id expiring at `now + ttl` (other keys
untouched), and on failure it returns the "lock already held" error and
leaves the store unchanged. -/
theorem c7_acquire_lock_semantics (st : DoraYaki.LockStore)
    (lockID lockedBy : String) (now ttl : ℚ) :
    ((DoraYaki.AcquireSyncLock st lockID lockedBy now ttl).err = none ↔
      st lockID = none ∨ ∃ l, st lockID = some l ∧ l.expiresAt ≤ now) ∧
    ((DoraYaki.AcquireSyncLock st lockID lockedBy now ttl).err = none →
      (DoraYaki.AcquireSyncLock st lockID lockedBy now ttl).store lockID =
        some { id := lockID, lockedBy := lockedBy, lockedAt := now,
               expiresAt := now + ttl } ∧
      ∀ k, k ≠ lockID →
        (DoraYaki.AcquireSyncLock st lockID lockedBy now ttl).store k = st k) ∧
    ((DoraYaki.AcquireSyncLock st lockID lockedBy now ttl).err ≠ none →
      (∃ l, st lockID = some l ∧ now < l.expiresAt ∧
        (DoraYaki.AcquireSyncLock st lockID lockedBy now ttl).err =
          some ("lock already held by " ++ l.lockedBy)) ∧
      (DoraYaki.AcquireSyncLock st lockID lockedBy now ttl).store = st) := by
  unfold DoraYaki.AcquireSyncLock
  cases h : st lockID with
  | none =>
    refine ⟨by simp, ?_, by simp⟩
    intro _
    exact ⟨by simp [DoraYaki.putLock], fun k hk => by simp [DoraYaki.putLock, hk]⟩
  | some l =>
    by_cases hexp : now < l.expiresAt
    · simp only [if_pos hexp]
      refine ⟨?_, ?_, ?_⟩
      · constructor
        · intro hcontra
          exact absurd hcontra (by simp)
        · rintro (hnone | ⟨l', hl', hle⟩)
          · exact absurd hnone (by simp)
          · injection hl' with hl'
            subst hl'
            exact absurd hle (not_le.mpr hexp)
      · intro hcontra
        exact absurd hcontra (by simp)
      · intro _
        exact ⟨⟨l, rfl, hexp, by trivial⟩, by trivial⟩
    · simp only [if_neg hexp]
      refine ⟨?_, ?_, ?_⟩
      · exact ⟨fun _ => Or.inr ⟨l, rfl, not_lt.mp hexp⟩, fun _ => by trivial⟩
      · intro _
        exact ⟨by simp [DoraYaki.putLock], fun k hk => by simp [DoraYaki.putLock, hk]⟩
      · intro hne
        exact absurd rfl hne

/-- C10: `ReleaseSyncLock` always reports success; it leaves the store
unchanged when no lease exists or the stored holder differs from the caller,
and deletes the lease (touching no other key) exactly when the stored holder
matches the caller. -/
theorem c10_release_lock_semantics (st : DoraYaki.LockStore)
    (lockID lockedBy : String) :
    (DoraYaki.ReleaseSyncLock st lockID lockedBy).err = none ∧
    (st lockID = none →
      (DoraYaki.ReleaseSyncLock st lockID lockedBy).store = st) ∧
    (∀ l, st lockID = some l → l.lockedBy ≠ lockedBy →
      (DoraYaki.ReleaseSyncLock st lockID lockedBy).store = st) ∧
    (∀ l, st lockID = some l → l.lockedBy = lockedBy →
      (DoraYaki.ReleaseSyncLock st lockID lockedBy).store lockID = none ∧
      ∀ k, k ≠ lockID →
        (DoraYaki.ReleaseSyncLock st lockID lockedBy).store k = st k) := by
  unfold DoraYaki.ReleaseSyncLock
  cases h : st lockID with
  | none => exact ⟨rfl, fun _ => rfl, fun l hl => by simp at hl, fun l hl => by simp at hl⟩
  | some l =>
    by_cases hown : l.lockedBy = lockedBy
    · refine ⟨by simp [hown], by simp, ?_, ?_⟩
      · intro l' hl' hne
        injection hl' with hl'
        subst hl'
        exact absurd hown hne
      · intro l' hl' _
        simp only [hown, ne_eq, not_true_eq_false, if_false]
        exact ⟨by simp [DoraYaki.deleteLock], fun k hk => by simp [DoraYaki.deleteLock, hk]⟩
    · refine ⟨by simp [hown], by simp, fun l' hl' hne => by simp [hown], ?_⟩
      intro l' hl' heq
      injection hl' with hl'
      subst hl'
      exact absurd heq hown

/-! ## C8: automatic sync-target selection -/

/-- The selection loop keeps `oldestSync` equal to the sync key of the kept
target. -/
theorem pickStep_inv (now si : ℚ) (acc : Option (DoraYaki.Repository × ℚ))
    (r : DoraYaki.Repository)
    (hacc : ∀ p q, acc = some (p, q) → q = DoraYaki.syncKey p) :
    ∀ p q, DoraYaki.pickStep now si acc r = some (p, q) → q = DoraYaki.syncKey p := by
  intro p q h
  unfold DoraYaki.pickStep at h
  by_cases helig : DoraYaki.syncEligible now si r
  · simp only [if_pos helig] at h
    cases acc with
    | none =>
      injection h with h
      injection h with h1 h2
      subst h1; subst h2; rfl
    | some tq =>
      obtain ⟨t, old⟩ := tq
      by_cases hlt : DoraYaki.syncKey r < old
      · simp only [if_pos hlt] at h
        injection h with h
        injection h with h1 h2
        subst h1; subst h2; rfl
      · simp only [if_neg hlt] at h
        injection h with h
        injection h with h1 h2
        subst h1; subst h2
        exact hacc _ _ rfl
  · simp only [if_neg helig] at h
    exact hacc p q h

/-- The selection loop returns nothing only when it had nothing and the
current repository is ineligible. -/
theorem pickStep_none_iff (now si : ℚ) (acc : Option (DoraYaki.Repository × ℚ))
    (r : DoraYaki.Repository) :
    DoraYaki.pickStep now si acc r = none ↔
      acc = none ∧ DoraYaki.syncEligible now si r = false := by
  unfold DoraYaki.pickStep
  by_cases helig : DoraYaki.syncEligible now si r
  · simp only [if_pos helig, helig]
    cases acc with
    | none => simp
    | some tq =>
      obtain ⟨t, old⟩ := tq
      by_cases hlt : DoraYaki.syncKey r < old
      · simp [hlt]
      · simp [hlt]
  · simp only [if_neg helig]
    simp [Bool.not_eq_true] at helig
    simp [helig]

/-- What the selection loop's output pair satisfies after one iteration. -/
theorem pickStep_some_spec (now si : ℚ) (acc : Option (DoraYaki.Repository × ℚ))
    (r : DoraYaki.Repository) (p : DoraYaki.Repository) (q : ℚ)
    (h : DoraYaki.pickStep now si acc r = some (p, q)) :
    (acc = some (p, q) ∨
      (p = r ∧ q = DoraYaki.syncKey r ∧ DoraYaki.syncEligible now si r = true)) ∧
    (∀ p₀ q₀, acc = some (p₀, q₀) → q ≤ q₀) ∧
    (DoraYaki.syncEligible now si r = true → q ≤ DoraYaki.syncKey r) := by
  unfold DoraYaki.pickStep at h
  by_cases helig : DoraYaki.syncEligible now si r
  · simp only [if_pos helig] at h
    cases acc with
    | none =>
      injection h with h
      injection h with h1 h2
      subst h1; subst h2
      exact ⟨Or.inr ⟨rfl, rfl, helig⟩, by simp, fun _ => le_refl _⟩
    | some tq =>
      obtain ⟨t, old⟩ := tq
      by_cases hlt : DoraYaki.syncKey r < old
      · simp only [if_pos hlt] at h
        injection h with h
        injection h with h1 h2
        subst h1; subst h2
        refine ⟨Or.inr ⟨rfl, rfl, helig⟩, ?_, fun _ => le_refl _⟩
        intro p₀ q₀ hp₀
        injection hp₀ with hp₀
        injection hp₀ with h1 h2
        subst h2
        exact le_of_lt hlt
      · simp only [if_neg hlt] at h
        injection h with h
        injection h with h1 h2
        subst h1; subst h2
        refine ⟨Or.inl rfl, ?_, fun _ => not_lt.mp hlt⟩
        intro p₀ q₀ hp₀
        injection hp₀ with hp₀
        injection hp₀ with h1 h2
        subst h2
        exact le_refl _
  · simp only [if_neg helig] at h
    refine ⟨Or.inl h, ?_, ?_⟩
    · intro p₀ q₀ hp₀
      rw [hp₀] at h
      injection h with h
      injection h with h1 h2
      subst h2
      exact le_refl _
    · intro hcontra
      exact absurd hcontra helig

/-- The full invariant of the selection fold: it returns nothing exactly when
it started with nothing and saw no eligible repository, and the returned
target is eligible, carries its own sync key, and minimizes the sync key over
every eligible repository seen and over the starting accumulator. -/
theorem pickFold_spec (now si : ℚ) (l : List DoraYaki.Repository) :
    ∀ acc : Option (DoraYaki.Repository × ℚ),
      (∀ p q, acc = some (p, q) → q = DoraYaki.syncKey p) →
      ((l.foldl (DoraYaki.pickStep now si) acc = none ↔
          acc = none ∧ ∀ r ∈ l, DoraYaki.syncEligible now si r = false) ∧
        (∀ t old, l.foldl (DoraYaki.pickStep now si) acc = some (t, old) →
          old = DoraYaki.syncKey t ∧
          (acc = some (t, old) ∨
            (t ∈ l ∧ DoraYaki.syncEligible now si t = true)) ∧
          (∀ r ∈ l, DoraYaki.syncEligible now si r = true →
            old ≤ DoraYaki.syncKey r) ∧
          (∀ p q, acc = some (p, q) → old ≤ q))) := by
  induction l with
  | nil =>
    intro acc hacc
    refine ⟨by simp, ?_⟩
    intro t old h
    simp only [List.foldl_nil] at h
    refine ⟨hacc t old h, Or.inl h, by simp, ?_⟩
    intro p q hpq
    rw [h] at hpq
    injection hpq with hpq
    injection hpq with h1 h2
    subst h2
    exact le_refl _
  | cons hd tl ih =>
    intro acc hacc
    simp only [List.foldl_cons]
    have hinv : ∀ p q, DoraYaki.pickStep now si acc hd = some (p, q) →
        q = DoraYaki.syncKey p := pickStep_inv now si acc hd hacc
    obtain ⟨ih1, ih2⟩ := ih (DoraYaki.pickStep now si acc hd) hinv
    constructor
    · rw [ih1, pickStep_none_iff]
      constructor
      · rintro ⟨⟨h1, h2⟩, h3⟩
        refine ⟨h1, ?_⟩
        intro r hr
        rcases List.mem_cons.mp hr with rfl | hrtl
        · exact h2
        · exact h3 r hrtl
      · rintro ⟨h1, h2⟩
        exact ⟨⟨h1, h2 hd (List.mem_cons_self hd tl)⟩,
          fun r hr => h2 r (List.mem_cons_of_mem hd hr)⟩
    · intro t old h
      obtain ⟨h1, h2, h3, h4⟩ := ih2 t old h
      refine ⟨h1, ?_, ?_, ?_⟩
      · cases h2 with
        | inl hstep =>
          rcases (pickStep_some_spec now si acc hd t old hstep).1 with
            hacceq | ⟨hph, hq, helig⟩
          · exact Or.inl hacceq
          · subst hph
            exact Or.inr ⟨List.mem_cons_self t tl, helig⟩
        | inr hmem =>
          exact Or.inr ⟨List.mem_cons_of_mem hd hmem.1, hmem.2⟩
      · intro r hr helig
        rcases List.mem_cons.mp hr with rfl | hrtl
        · have hne : DoraYaki.pickStep now si acc r ≠ none := by
            intro hnone
            rw [pickStep_none_iff] at hnone
            obtain ⟨_, hcontra⟩ := hnone
            rw [helig] at hcontra
            cases hcontra
          obtain ⟨pq, hpq⟩ := Option.ne_none_iff_exists'.mp hne
          obtain ⟨p₀, q₀⟩ := pq
          have hle := (pickStep_some_spec now si acc r p₀ q₀ hpq).2.2 helig
          have hold := h4 p₀ q₀ hpq
          linarith
        · exact h3 r hrtl helig
      · intro p q hpq
        have hne : DoraYaki.pickStep now si acc hd ≠ none := by
          intro hnone
          rw [pickStep_none_iff] at hnone
          obtain ⟨hcontra, _⟩ := hnone
          rw [hpq] at hcontra
          cases hcontra
        obtain ⟨pq', hpq'⟩ := Option.ne_none_iff_exists'.mp hne
        obtain ⟨p', q'⟩ := pq'
        have hle := (pickStep_some_spec now si acc hd p' q' hpq').2.1 p q hpq
        have hold := h4 p' q' hpq'
        linarith

/-- C8: with no specific repository requested, target selection considers
exactly the repositories whose last-successful-sync time is absent or at
least the sync interval in the past and whose process-start marker is absent
or at least 10 minutes (`processStartGuard`) old; it returns no target
exactly when no repository is eligible, and otherwise returns an eligible
repository minimizing the last-successful-sync key, under which (for positive
real sync times) a never-synced repository outranks every synced one. -/
theorem c8_pick_sync_target (repos : List DoraYaki.Repository)
    (now syncInterval : ℚ) :
    (∀ r : DoraYaki.Repository,
      DoraYaki.syncEligible now syncInterval r = true ↔
        ((∀ s, r.lastSyncedAt = some s → syncInterval ≤ now - s) ∧
          (∀ s, r.processStartAt = some s → DoraYaki.processStartGuard ≤ now - s))) ∧
    (DoraYaki.pickSyncTargetAuto repos now syncInterval = none ↔
      ∀ r ∈ repos, DoraYaki.syncEligible now syncInterval r = false) ∧
    (∀ t, DoraYaki.pickSyncTargetAuto repos now syncInterval = some t →
      t ∈ repos ∧ DoraYaki.syncEligible now syncInterval t = true ∧
      ∀ r ∈ repos, DoraYaki.syncEligible now syncInterval r = true →
        DoraYaki.syncKey t ≤ DoraYaki.syncKey r) ∧
    ((∀ r ∈ repos, ∀ s, r.lastSyncedAt = some s → 0 < s) →
      ∀ t, DoraYaki.pickSyncTargetAuto repos now syncInterval = some t →
        (∃ r ∈ repos, DoraYaki.syncEligible now syncInterval r = true ∧
          r.lastSyncedAt = none) →
        t.lastSyncedAt = none) := by
  obtain ⟨hfold1, hfold2⟩ :=
    pickFold_spec now syncInterval repos none (by intro p q h; cases h)
  have hsome : ∀ t, DoraYaki.pickSyncTargetAuto repos now syncInterval = some t →
      t ∈ repos ∧ DoraYaki.syncEligible now syncInterval t = true ∧
      ∀ r ∈ repos, DoraYaki.syncEligible now syncInterval r = true →
        DoraYaki.syncKey t ≤ DoraYaki.syncKey r := by
    intro t ht
    unfold DoraYaki.pickSyncTargetAuto at ht
    rw [Option.map_eq_some'] at ht
    obtain ⟨pair, hfold, hfst⟩ := ht
    obtain ⟨t', old⟩ := pair
    obtain ⟨h1, h2, h3, _⟩ := hfold2 t' old hfold
    subst hfst
    rcases h2 with hcontra | ⟨hmem, helig⟩
    · cases hcontra
    · refine ⟨hmem, helig, ?_⟩
      intro r hr helig'
      have := h3 r hr helig'
      rw [h1] at this
      exact this
  refine ⟨?_, ?_, hsome, ?_⟩
  · intro r
    unfold DoraYaki.syncEligible DoraYaki.notRecentlySynced DoraYaki.notRecentlyStarted
    cases hl : r.lastSyncedAt with
    | none =>
      cases hp : r.processStartAt with
      | none => simp
      | some tp => simp [not_lt]
    | some tl =>
      cases hp : r.processStartAt with
      | none => simp [not_lt]
      | some tp => simp [not_lt]
  · unfold DoraYaki.pickSyncTargetAuto
    rw [Option.map_eq_none', hfold1]
    simp
  · intro hpos t ht hex
    obtain ⟨_, _, hmin⟩ := hsome t ht
    obtain ⟨r0, hr0mem, hr0elig, hr0none⟩ := hex
    have hle : DoraYaki.syncKey t ≤ 0 := by
      have := hmin r0 hr0mem hr0elig
      simp only [DoraYaki.syncKey, hr0none, Option.getD_none] at this
      exact this
    obtain ⟨hmem, _, _⟩ := hsome t ht
    cases hts : t.lastSyncedAt with
    | none => rfl
    | some s =>
      have hpos' := hpos t hmem s hts
      simp only [DoraYaki.syncKey, hts, Option.getD_some] at hle
      linarith

/-! ## C9: cache round-trip -/

/-- C9: after a 2xx compute-tier response for key K the body is stored
synchronously in the memory tier, so an immediate memory lookup returns a
byte-identical body; and after evicting the memory entry for K alone, a
durable-tier lookup still returns the same body and re-populates the memory
tier before returning. -/
theorem c9_cache_roundtrip (rc : DoraYaki.CacheState) (ttl : ℚ) (key : String)
    (cw : DoraYaki.ResponseCapture) (now later : ℚ) :
    (200 ≤ cw.statusCode → cw.statusCode < 300 → 0 ≤ ttl →
      ∃ e, DoraYaki.getFromMemory (DoraYaki.computeAndCache rc key cw now)
          ttl key now = some e ∧ e.body = cw.body) ∧
    (200 ≤ cw.statusCode → cw.statusCode < 300 →
      (DoraYaki.evictMemory (DoraYaki.computeAndCache rc key cw now) key).memory
          key = none ∧
      ∃ e st,
        DoraYaki.getFromDatastore
            (DoraYaki.evictMemory (DoraYaki.computeAndCache rc key cw now) key)
            key later = some (e, st) ∧
        e.body = cw.body ∧ st.memory key = some e) := by
  constructor
  · intro h200 h300 httl
    have hstore : DoraYaki.computeAndCache rc key cw now = DoraYaki.storeAll rc key cw now := by
      unfold DoraYaki.computeAndCache
      rw [if_pos ⟨h200, h300⟩]
    rw [hstore]
    have httl' : ¬ ttl < 0 := not_lt.mpr httl
    refine ⟨{ body := cw.body,
              contentType :=
                if cw.contentType = "" then "application/json" else cw.contentType,
              statusCode := cw.statusCode, createdAt := now }, ?_, rfl⟩
    simp [DoraYaki.getFromMemory, DoraYaki.storeAll, httl']
  · intro h200 h300
    have hstore : DoraYaki.computeAndCache rc key cw now = DoraYaki.storeAll rc key cw now := by
      unfold DoraYaki.computeAndCache
      rw [if_pos ⟨h200, h300⟩]
    rw [hstore]
    refine ⟨?_, ?_⟩
    · simp [DoraYaki.evictMemory]
    · refine ⟨{ body := cw.body, contentType := "application/json",
                statusCode := 200, createdAt := later },
              { memory := fun k => if k = key
                  then some { body := cw.body, contentType := "application/json",
                              statusCode := 200, createdAt := later }
                  else (DoraYaki.evictMemory (DoraYaki.storeAll rc key cw now) key).memory k,
                ds := (DoraYaki.evictMemory (DoraYaki.storeAll rc key cw now) key).ds },
              ?_, rfl, by simp⟩
      simp [DoraYaki.getFromDatastore, DoraYaki.evictMemory, DoraYaki.storeAll]

/-! ## C5: median is below the 90th percentile -/

/-- The sorted copy used by `median` and `percentile` is sorted. -/
theorem sortFloat64s_sorted (l : List ℚ) :
    (DoraYaki.sortFloat64s l).Sorted (fun a b => a ≤ b) :=
  List.sorted_insertionSort _ l

/-- Sorting preserves length. -/
theorem sortFloat64s_length (l : List ℚ) :
    (DoraYaki.sortFloat64s l).length = l.length := by
  simp [DoraYaki.sortFloat64s]

/-- In a sorted series, order statistics are monotone in the index. -/
theorem sorted_getD_mono (l : List ℚ) (hs : l.Sorted (fun a b => a ≤ b))
    (i j : ℕ) (hij : i ≤ j) (hj : j < l.length) :
    l.getD i 0 ≤ l.getD j 0 := by
  have hi : i < l.length := lt_of_le_of_lt hij hj
  rw [List.getD_eq_getElem l 0 hi, List.getD_eq_getElem l 0 hj]
  exact hs.rel_get_of_le (a := ⟨i, hi⟩) (b := ⟨j, hj⟩) hij

/-- Go's float-to-int conversion agrees with the floor on non-negative
values, the only ones `percentile` produces for `p = 90`. -/
theorem truncToInt_of_nonneg (q : ℚ) (h : 0 ≤ q) : DoraYaki.truncToInt q = ⌊q⌋ :=
  if_pos h

/-- C5: for every non-empty duration series the median is at most the
90th percentile, and the 90th percentile of a one-element series is that
element. -/
theorem c5_median_le_p90 (l : List ℚ) (x : ℚ) (hl : l ≠ []) :
    DoraYaki.median l ≤ DoraYaki.percentile l 90 ∧
    DoraYaki.percentile [x] 90 = x := by
  constructor
  · set s := DoraYaki.sortFloat64s l with hs_def
    have hs : s.Sorted (fun a b => a ≤ b) := sortFloat64s_sorted l
    have hslen : s.length = l.length := sortFloat64s_length l
    have hsne : s ≠ [] := by
      intro hcontra
      apply hl
      have : s.length = 0 := by rw [hcontra]; rfl
      rw [hslen] at this
      exact List.length_eq_zero.mp this
    have hN : 1 ≤ s.length := by
      rcases Nat.eq_zero_or_pos s.length with h0 | h1
      · exact absurd (List.length_eq_zero.mp h0) hsne
      · exact h1
    -- the fractional index and its floor
    set N := s.length with hN_def
    set index : ℚ := ((90 : ℚ) / 100) * ((N : ℚ) - 1) with hidx_def
    have hidx0 : 0 ≤ index := by
      apply mul_nonneg (by norm_num)
      have : (1 : ℚ) ≤ (N : ℚ) := by exact_mod_cast hN
      linarith
    have hfloor0 : 0 ≤ ⌊index⌋ := Int.floor_nonneg.mpr hidx0
    have htr : DoraYaki.truncToInt index = ⌊index⌋ := truncToInt_of_nonneg index hidx0
    -- unfold both statistics
    rw [DoraYaki.median, DoraYaki.percentile, if_neg hl, if_neg hl]
    simp only [← hs_def, ← hN_def, ← hidx_def, htr]
    rcases eq_or_lt_of_le hN with h1 | h2
    · -- N = 1
      have hN1 : N = 1 := h1.symm
      have hidx_eq : index = 0 := by
        rw [hidx_def, hN1]
        norm_num
      have hfl : ⌊index⌋ = 0 := by rw [hidx_eq]; exact Int.floor_zero
      have hmod : ¬ N % 2 = 0 := by omega
      have hbr : (N : ℤ) ≤ ⌊index⌋ + 1 := by
        rw [hfl]
        exact_mod_cast hN1.le
      rw [if_neg hmod, if_pos hbr, hfl, hN1]
      norm_num
    · -- N ≥ 2: interpolation branch
      have hN2 : 2 ≤ N := h2
      have hNQ2 : (2 : ℚ) ≤ (N : ℚ) := by exact_mod_cast hN2
      have hidx_lt : index < (N : ℚ) - 1 := by
        rw [hidx_def]
        nlinarith
      have hfloor_lt : ⌊index⌋ < (N : ℤ) - 1 := by
        have : ⌊index⌋ < ((N : ℤ) - 1 : ℤ) ↔ index < (((N : ℤ) - 1 : ℤ) : ℚ) :=
          Int.floor_lt
        apply this.mpr
        push_cast
        exact hidx_lt
      have hbranch : ¬ ((N : ℤ) ≤ ⌊index⌋ + 1) := by omega
      rw [if_neg hbranch]
      set L := (⌊index⌋).toNat with hL_def
      have hLcast : (L : ℤ) = ⌊index⌋ := Int.toNat_of_nonneg hfloor0
      have hup : (⌊index⌋ + 1).toNat = L + 1 := by omega
      rw [hup]
      have hLlt : L + 1 < N := by omega
      set w : ℚ := index - (⌊index⌋ : ℚ) with hw_def
      have hw0 : 0 ≤ w := by
        rw [hw_def]
        have := Int.floor_le index
        linarith
      have hw1 : w ≤ 1 := by
        rw [hw_def]
        have := Int.lt_floor_add_one index
        push_cast at this
        linarith
      have hstep : s.getD L 0 ≤ s.getD (L + 1) 0 :=
        sorted_getD_mono s hs L (L + 1) (Nat.le_succ L) hLlt
      have hinterp : s.getD L 0 ≤ s.getD L 0 * (1 - w) + s.getD (L + 1) 0 * w := by
        have hprod := mul_nonneg hw0 (sub_nonneg.mpr hstep)
        nlinarith
      rcases eq_or_lt_of_le hN2 with hN2eq | hN3
      · -- N = 2
        have hNeq : N = 2 := hN2eq.symm
        have hmod : N % 2 = 0 := by rw [hNeq]
        have hmid : N / 2 = 1 := by rw [hNeq]
        rw [if_pos hmod, hmid]
        have hfloor_eq : ⌊index⌋ = 0 := by
          have hidx_eq : index = 9 / 10 := by
            rw [hidx_def, hNeq]
            norm_num
          rw [hidx_eq]
          norm_num
        have hLeq : L = 0 := by omega
        have hweq : w = 9 / 10 := by
          rw [hw_def, hfloor_eq]
          rw [hidx_def, hNeq]
          norm_num
        rw [hLeq, hweq]
        have h01 : s.getD 0 0 ≤ s.getD 1 0 := by
          apply sorted_getD_mono s hs 0 1 (by omega)
          omega
        have h10 : (1 : ℕ) - 1 = 0 := rfl
        rw [h10]
        linarith
      · -- N ≥ 3
        have hN3' : 3 ≤ N := hN3
        have hNQ3 : (3 : ℚ) ≤ (N : ℚ) := by exact_mod_cast hN3'
        set mid := N / 2 with hmid_def
        have hmid_lt : mid < N := Nat.div_lt_self (by omega) (by omega)
        have hmid_le_L : mid ≤ L := by
          have hcast : ((mid : ℤ) : ℚ) ≤ index := by
            have h1 : (mid : ℚ) ≤ (N : ℚ) / 2 := by
              rw [hmid_def]
              exact_mod_cast Nat.cast_div_le
            have h2 : (N : ℚ) / 2 ≤ ((90 : ℚ) / 100) * ((N : ℚ) - 1) := by
              linarith
            rw [hidx_def]
            push_cast
            linarith [h1, h2]
          have : (mid : ℤ) ≤ ⌊index⌋ := Int.le_floor.mpr hcast
          omega
        have hLltN : L < N := by omega
        have hmidL : s.getD mid 0 ≤ s.getD L 0 :=
          sorted_getD_mono s hs mid L hmid_le_L hLltN
        have hmed : (if N % 2 = 0 then (s.getD (mid - 1) 0 + s.getD mid 0) / 2
            else s.getD mid 0) ≤ s.getD mid 0 := by
          by_cases hmod : N % 2 = 0
          · rw [if_pos hmod]
            have : s.getD (mid - 1) 0 ≤ s.getD mid 0 :=
              sorted_getD_mono s hs (mid - 1) mid (Nat.sub_le mid 1) hmid_lt
            linarith
          · rw [if_neg hmod]
        calc (if N % 2 = 0 then (s.getD (mid - 1) 0 + s.getD mid 0) / 2
              else s.getD mid 0)
            ≤ s.getD mid 0 := hmed
          _ ≤ s.getD L 0 := hmidL
          _ ≤ s.getD L 0 * (1 - w) + s.getD (L + 1) 0 * w := hinterp
  · simp [DoraYaki.percentile, DoraYaki.sortFloat64s, DoraYaki.truncToInt]

/-- Witness for C5 at the series [10, 50, 200] and the singleton [7]. -/
theorem c5_median_le_p90_witness :
    DoraYaki.median [(10 : ℚ), 50, 200] ≤ DoraYaki.percentile [(10 : ℚ), 50, 200] 90 ∧
    DoraYaki.percentile [(7 : ℚ)] 90 = 7 :=
  c5_median_le_p90 [(10 : ℚ), 50, 200] 7 (by simp)
